import Mathlib

/-!
Shallow embedding of the `botfair` repository.

The staking-math module (`betfair/betting.py`) consists of pure numeric
functions; they are embedded over `ℚ`, with Python's `raise ValueError`
modelled as the `Except.error` branch of an `Except` result (the spec calls
this error class `InvalidInput`).

The exchange facade (`betfair/__init__.py`) is embedded by modelling the
response data it inspects (market catalogues, market books, place-order
responses) as explicit structures and turning each method's
response-processing logic into a function on those structures.  A Python
`IndexError` from an out-of-range list subscript is likewise an
`Except.error` branch.
-/

/-- Error raised by the staking-math functions: Python's `ValueError`,
called `InvalidInput` in the specification.  The payload is the error
message text. -/
inductive BettingError where
  | invalidInput (msg : String)
deriving Repr, DecidableEq

/-- Checks whether `pat` is a prefix of a character list. -/
def isPrefixOfCL : List Char → List Char → Bool
  | [], _ => true
  | _ :: _, [] => false
  | a :: as, b :: bs => a == b && isPrefixOfCL as bs

/-- Checks whether `pat` occurs as a contiguous sublist of a character
list; used to model Python's substring operator `in`. -/
def containsCL (pat : List Char) : List Char → Bool
  | [] => isPrefixOfCL pat []
  | c :: rest => isPrefixOfCL pat (c :: rest) || containsCL pat rest

/-- Python's substring test `pat in s` on strings. -/
def strContains (s pat : String) : Bool := containsCL pat.data s.data

/-- Python's `str.lower()`. -/
def lowerStr (s : String) : String := String.mk (s.data.map Char.toLower)

/-- `kelly_criterion` from `betfair/betting.py`: fraction of bankroll to
be bet using the Kelly criterion, guarded by range checks on the
probability, the odds and Kelly's fraction. -/
def kelly_criterion (proba odds fraction : ℚ) : Except BettingError ℚ :=
  if proba < 0 ∨ proba > 1 then
    .error (.invalidInput "Event probability must be in between 0 and 1.")
  else if odds ≤ 1 then
    .error (.invalidInput "Odds must be greater than 1.")
  else if fraction < 0 ∨ fraction > 1 then
    .error (.invalidInput "Kelly's fraction must be in between 0 and 1.")
  else
    .ok (fraction * (odds * proba - (1 - proba)) / odds)

/-- `_ev` from `betfair/betting.py`: the basic expected value formula,
guarding the probability range. -/
def _ev (proba profit loss : ℚ) : Except BettingError ℚ :=
  if proba < 0 ∨ proba > 1 then
    .error (.invalidInput "Event probability must be in between 0 and 1.")
  else
    .ok (proba * profit - (1 - proba) * loss)

/-- `_ev_back` from `betfair/betting.py`: expected value for backing. -/
def _ev_back (stake proba odds rate : ℚ) : Except BettingError ℚ :=
  _ev proba (stake * (odds - 1) * (1 - rate)) stake

/-- `_ev_lay` from `betfair/betting.py`: expected value for laying. -/
def _ev_lay (stake proba odds rate : ℚ) : Except BettingError ℚ :=
  _ev proba (stake * (1 - rate)) (stake * (odds - 1))

/-- `expected_value` from `betfair/betting.py`: expected value for back
or lay.  The final dispatch mirrors the source's
`if "back" in option.lower()` substring test. -/
def expected_value (stake proba odds rate : ℚ) (option : String) :
    Except BettingError ℚ :=
  if option ∉ (["back", "lay"] : List String) then
    .error (.invalidInput "Invalid option. Accepted values are back and lay")
  else if odds ≤ 1 then
    .error (.invalidInput "Odds must be greater than 1.")
  else if rate < 0 ∨ rate > 1 then
    .error (.invalidInput "Rate must be in between 0 and 1.")
  else if strContains (lowerStr option) "back" then
    _ev_back stake proba odds rate
  else
    _ev_lay stake proba odds rate

/-- One price/size pair from an exchange runner's order book
(`r.ex.available_to_back[i]` / `r.ex.available_to_lay[i]`). -/
structure PriceSize where
  price : ℚ
  size : ℚ
deriving Repr

/-- The `ex` attribute of a market-book runner: the available back and
lay offers. -/
structure ExchangePrices where
  available_to_back : List PriceSize
  available_to_lay : List PriceSize
deriving Repr

/-- One runner of a market book. -/
structure Runner where
  selection_id : Int
  ex : ExchangePrices
deriving Repr

/-- A market book returned by `list_market_book`. -/
structure MarketBook where
  status : String
  inplay : Bool
  runners : List Runner
deriving Repr

/-- The `event` attribute of a market catalogue. -/
structure Event where
  name : String
deriving Repr

/-- The `competition` attribute of a market catalogue.  The source
converts `competition.id` with `int(...)`, so the id is held as an
integer. -/
structure Competition where
  id : Int
  name : String
deriving Repr

/-- The `description` attribute of a market catalogue.  Date-time values
(`market_time`, `suspend_time`) are modelled as rational time stamps
measured in days. -/
structure MarketDescription where
  market_base_rate : ℚ
  market_time : ℚ
  suspend_time : ℚ
deriving Repr

/-- One market catalogue entry returned by `list_market_catalogue`. -/
structure MarketCatalogue where
  event : Event
  market_id : String
  market_name : String
  market_start_time : ℚ
  total_matched : ℚ
  competition : Competition
  description : MarketDescription
deriving Repr

/-- The flattened market dictionary yielded by `Betfair.markets`. -/
structure MarketRecord where
  event_name : String
  market_id : String
  market_name : String
  market_start_time : ℚ
  total_matched : ℚ
  competition_id : Int
  competition_name : String
  market_base_rate : ℚ
  market_time : ℚ
  suspend_time : ℚ
deriving Repr

/-- The dictionary built from one catalogue entry in the body of the
`yield` in `Betfair.markets`.  Note `market_base_rate` is divided by
100. -/
def flatten_catalogue (mkt : MarketCatalogue) : MarketRecord :=
  { event_name := mkt.event.name
    market_id := mkt.market_id
    market_name := mkt.market_name
    market_start_time := mkt.market_start_time
    total_matched := mkt.total_matched
    competition_id := mkt.competition.id
    competition_name := mkt.competition.name
    market_base_rate := mkt.description.market_base_rate / 100
    market_time := mkt.description.market_time
    suspend_time := mkt.description.suspend_time }

/-- `Betfair.markets` from `betfair/__init__.py`, for the catalogue list
of one competition: each entry whose `description.market_time` exceeds
`now + timedelta(days=max_days_left)` is skipped with `continue`; every
other entry is flattened and yielded.  `now` is the value of
`datetime.now()` and time is measured in days, so the limit is
`now + max_days_left`. -/
def markets (now max_days_left : ℚ) : List MarketCatalogue → List MarketRecord
  | [] => []
  | mkt :: rest =>
    if mkt.description.market_time > now + max_days_left then
      markets now max_days_left rest
    else
      flatten_catalogue mkt :: markets now max_days_left rest

/-- Error arising while flattening a market book in `Betfair.books`:
Python's `IndexError` from subscripting an empty offer list. -/
inductive BooksError where
  | indexError
deriving Repr, DecidableEq

/-- The flattened book-entry dictionary built inside `Betfair.books`. -/
structure BookEntry where
  event_name : String
  market_id : String
  market_time : ℚ
  competition_id : Int
  competition_name : String
  selection_id : Int
  option : String
  price : ℚ
  size : ℚ
  market_rate : ℚ
deriving Repr

/-- The back-side dictionary `Betfair.books` builds for one runner, with
`p` the runner's `ex.available_to_back[0]`. -/
def mk_back_entry (market : MarketRecord) (r : Runner) (p : PriceSize) :
    BookEntry :=
  { event_name := market.event_name
    market_id := market.market_id
    market_time := market.market_time
    competition_id := market.competition_id
    competition_name := market.competition_name
    selection_id := r.selection_id
    option := "back"
    price := p.price
    size := p.size
    market_rate := market.market_base_rate }

/-- The lay-side dictionary `Betfair.books` builds for one runner, with
`p` the runner's `ex.available_to_lay[0]`. -/
def mk_lay_entry (market : MarketRecord) (r : Runner) (p : PriceSize) :
    BookEntry :=
  { event_name := market.event_name
    market_id := market.market_id
    market_time := market.market_time
    competition_id := market.competition_id
    competition_name := market.competition_name
    selection_id := r.selection_id
    option := "lay"
    price := p.price
    size := p.size
    market_rate := market.market_base_rate }

/-- The `back` list comprehension in `Betfair.books`: a runner is
included when its `ex.available_to_lay` list is truthy (non-empty), and
the included entry reads `ex.available_to_back[0]`, which raises
`IndexError` when that list is empty. -/
def back_entries (market : MarketRecord) :
    List Runner → Except BooksError (List BookEntry)
  | [] => .ok []
  | r :: rs =>
    if r.ex.available_to_lay.isEmpty then
      back_entries market rs
    else
      match r.ex.available_to_back with
      | [] => .error .indexError
      | p :: _ => (back_entries market rs).map (mk_back_entry market r p :: ·)

/-- The `lay` list comprehension in `Betfair.books`: a runner is included
when its `ex.available_to_lay` list is non-empty, and the entry reads
`ex.available_to_lay[0]` (never failing for an included runner). -/
def lay_entries (market : MarketRecord) :
    List Runner → Except BooksError (List BookEntry)
  | [] => .ok []
  | r :: rs =>
    if r.ex.available_to_lay.isEmpty then
      lay_entries market rs
    else
      match r.ex.available_to_lay with
      | [] => .error .indexError
      | p :: _ => (lay_entries market rs).map (mk_lay_entry market r p :: ·)

/-- The per-market body of `Betfair.books`: skip markets that are not
open or are in-play (yield nothing, `.ok none`), otherwise flatten the
back and lay sides and yield their concatenation when non-empty. -/
def process_market_book (market : MarketRecord) (mb : MarketBook) :
    Except BooksError (Option (List BookEntry)) :=
  if mb.status ≠ "OPEN" ∨ mb.inplay then
    .ok none
  else do
    let back ← back_entries market mb.runners
    let lay ← lay_entries market mb.runners
    if (back ++ lay).length > 0 then
      pure (some (back ++ lay))
    else
      pure none

/-- Error raised by `Betfair.place_bet`: the `ValueError` carrying the
venue's status and error code (the spec's `OrderRejected`), or the
`IndexError` from subscripting an empty instruction-report list. -/
inductive PlaceBetError where
  | orderRejected (status errorCode : String)
  | indexError
deriving Repr, DecidableEq

/-- One instruction report of a place-orders response.  Dates are held as
their ISO-format strings. -/
structure PlaceInstructionReport where
  bet_id : String
  placed_date : String
  size_matched : ℚ
  status : String
deriving Repr

/-- The venue's response to `place_orders`. -/
structure PlaceOrdersResponse where
  status : String
  error_code : String
  place_instruction_reports : List PlaceInstructionReport
deriving Repr

/-- The dictionary `Betfair.place_bet` returns.  As in the source, the
`average_price_matched` field is filled with the report's placed date. -/
structure PlacedBetRecord where
  bet_id : String
  placed_date : String
  average_price_matched : String
  size_matched : ℚ
  status : String
deriving Repr

/-- The response handling of `Betfair.place_bet` from
`betfair/__init__.py`: raise on a failure status, otherwise build the
returned record from `place_instruction_reports[0]`. -/
def place_bet (res : PlaceOrdersResponse) :
    Except PlaceBetError PlacedBetRecord :=
  if res.status = "FAILURE" then
    .error (.orderRejected res.status res.error_code)
  else
    match res.place_instruction_reports with
    | [] => .error .indexError
    | report :: _ =>
      .ok
        { bet_id := report.bet_id
          placed_date := report.placed_date
          average_price_matched := report.placed_date
          size_matched := report.size_matched
          status := report.status }

/-- A runner whose lay side is quoted but whose back side is empty;
subscripting its `available_to_back[0]` raises `IndexError`. -/
def sample_runner : Runner :=
  { selection_id := 42
    ex := { available_to_back := [], available_to_lay := [{ price := 2, size := 10 }] } }

/-- A flattened market record used to instantiate the book theorems. -/
def sample_market_record : MarketRecord :=
  { event_name := "A v B"
    market_id := "1.23"
    market_name := "Match Odds"
    market_start_time := 5
    total_matched := 0
    competition_id := 10932509
    competition_name := "English Premier League"
    market_base_rate := 1 / 20
    market_time := 5
    suspend_time := 5 }

/-- A market catalogue entry starting 8 days from `now = 0`, outside a
7-day horizon. -/
def sample_catalogue : MarketCatalogue :=
  { event := { name := "A v B" }
    market_id := "1.24"
    market_name := "Match Odds"
    market_start_time := 8
    total_matched := 0
    competition := { id := 10932509, name := "English Premier League" }
    description := { market_base_rate := 5, market_time := 8, suspend_time := 8 } }

/-- An instruction report used to instantiate the place-bet theorem. -/
def sample_report : PlaceInstructionReport :=
  { bet_id := "bet-1"
    placed_date := "2021-01-01T00:00:00"
    size_matched := 0
    status := "EXECUTABLE" }

/-- A successful place-orders response with one instruction report. -/
def sample_success_response : PlaceOrdersResponse :=
  { status := "SUCCESS"
    error_code := ""
    place_instruction_reports := [sample_report] }

/-- A non-failure place-orders response whose instruction-report list is
empty. -/
def sample_empty_response : PlaceOrdersResponse :=
  { status := "SUCCESS"
    error_code := ""
    place_instruction_reports := [] }

/-- Range checks of the form `x < 0 or x > 1` fail on `[0, 1]`. -/
lemma not_or_range {x : ℚ} (h0 : 0 ≤ x) (h1 : x ≤ 1) : ¬(x < 0 ∨ x > 1) := by
  rw [not_or]
  exact ⟨not_lt.mpr h0, not_lt.mpr h1⟩

/-- On an in-range probability, `_ev` returns its formula. -/
lemma ev_ok (p pr ls : ℚ) (hp0 : 0 ≤ p) (hp1 : p ≤ 1) :
    _ev p pr ls = .ok (p * pr - (1 - p) * ls) := by
  unfold _ev
  rw [if_neg (not_or_range hp0 hp1)]

/-- `_ev` fails with `InvalidInput` exactly on out-of-range
probabilities. -/
lemma ev_invalid_iff (p pr ls : ℚ) :
    (∃ msg, _ev p pr ls = .error (.invalidInput msg)) ↔ p < 0 ∨ p > 1 := by
  unfold _ev
  split_ifs with h
  · exact ⟨fun _ => h, fun _ => ⟨_, rfl⟩⟩
  · constructor
    · rintro ⟨msg, hmsg⟩
      exact absurd hmsg (by simp)
    · intro hc
      exact absurd hc h

/-- On in-range arguments, `kelly_criterion` returns its formula. -/
lemma kelly_criterion_ok (p o f : ℚ) (hp0 : 0 ≤ p) (hp1 : p ≤ 1)
    (ho : 1 < o) (hf0 : 0 ≤ f) (hf1 : f ≤ 1) :
    kelly_criterion p o f = .ok (f * (o * p - (1 - p)) / o) := by
  unfold kelly_criterion
  rw [if_neg (not_or_range hp0 hp1), if_neg (not_le.mpr ho),
    if_neg (not_or_range hf0 hf1)]

/-- With the side fixed to `"back"` and the odds and rate in range,
`expected_value` delegates to `_ev_back`. -/
lemma expected_value_back_eq (s p o r : ℚ) (ho : 1 < o)
    (hr0 : 0 ≤ r) (hr1 : r ≤ 1) :
    expected_value s p o r "back" = _ev_back s p o r := by
  unfold expected_value
  rw [if_neg (by decide), if_neg (not_le.mpr ho),
    if_neg (not_or_range hr0 hr1), if_pos (by decide)]

/-- With the side fixed to `"lay"` and the odds and rate in range,
`expected_value` delegates to `_ev_lay`. -/
lemma expected_value_lay_eq (s p o r : ℚ) (ho : 1 < o)
    (hr0 : 0 ≤ r) (hr1 : r ≤ 1) :
    expected_value s p o r "lay" = _ev_lay s p o r := by
  unfold expected_value
  rw [if_neg (by decide), if_neg (not_le.mpr ho),
    if_neg (not_or_range hr0 hr1), if_neg (by decide)]

/-- On in-range arguments, backing evaluates to the documented
formula. -/
lemma expected_value_back_ok (s p o r : ℚ) (hp0 : 0 ≤ p) (hp1 : p ≤ 1)
    (ho : 1 < o) (hr0 : 0 ≤ r) (hr1 : r ≤ 1) :
    expected_value s p o r "back" =
      .ok (p * (s * (o - 1) * (1 - r)) - (1 - p) * s) := by
  rw [expected_value_back_eq s p o r ho hr0 hr1]
  exact ev_ok p (s * (o - 1) * (1 - r)) s hp0 hp1

/-- On in-range arguments, laying evaluates to the documented formula. -/
lemma expected_value_lay_ok (s p o r : ℚ) (hp0 : 0 ≤ p) (hp1 : p ≤ 1)
    (ho : 1 < o) (hr0 : 0 ≤ r) (hr1 : r ≤ 1) :
    expected_value s p o r "lay" =
      .ok (p * (s * (1 - r)) - (1 - p) * (s * (o - 1))) := by
  rw [expected_value_lay_eq s p o r ho hr0 hr1]
  exact ev_ok p (s * (1 - r)) (s * (o - 1)) hp0 hp1

/-- C1: for every probability `p ∈ [0,1]`, odds `o > 1` and fraction
`f ∈ [0,1]`, `kelly_criterion p o f` raises no error and returns exactly
`f * (o*p - (1-p)) / o`; the result may be negative for such inputs,
e.g. `p = 1/10`, `o = 2`, `f = 1` yields `-7/20 < 0`. -/
theorem kelly_criterion_formula (p o f : ℚ) (hp0 : 0 ≤ p) (hp1 : p ≤ 1)
    (ho : 1 < o) (hf0 : 0 ≤ f) (hf1 : f ≤ 1) :
    kelly_criterion p o f = .ok (f * (o * p - (1 - p)) / o) ∧
      kelly_criterion (1/10) 2 1 = .ok (-7/20) ∧ (-7/20 : ℚ) < 0 := by
  refine ⟨kelly_criterion_ok p o f hp0 hp1 ho hf0 hf1, ?_, by norm_num⟩
  rw [kelly_criterion_ok (1/10) 2 1 (by norm_num) (by norm_num) (by norm_num)
    (by norm_num) (by norm_num)]
  exact congrArg Except.ok (by norm_num)

/-- Witness for C1 at `p = 1/2`, `o = 2`, `f = 1`. -/
theorem kelly_criterion_formula_witness :
    kelly_criterion (1/2) 2 1 = .ok (1 * (2 * (1/2) - (1 - 1/2)) / 2) :=
  (kelly_criterion_formula (1/2) 2 1 (by norm_num) (by norm_num) (by norm_num)
    (by norm_num) (by norm_num)).1

/-- C2: for every stake `s`, probability `p ∈ [0,1]`, odds `o > 1` and
commission rate `r ∈ [0,1]`, backing returns
`p*(s*(o-1)*(1-r)) - (1-p)*s` and laying returns
`p*(s*(1-r)) - (1-p)*(s*(o-1))`; in particular both sides give `-5/2` at
`s = 100`, `p = 1/2`, `o = 2`, `r = 1/20`. -/
theorem expected_value_back_lay_formulas (s p o r : ℚ) (hp0 : 0 ≤ p)
    (hp1 : p ≤ 1) (ho : 1 < o) (hr0 : 0 ≤ r) (hr1 : r ≤ 1) :
    expected_value s p o r "back" =
        .ok (p * (s * (o - 1) * (1 - r)) - (1 - p) * s) ∧
      expected_value s p o r "lay" =
        .ok (p * (s * (1 - r)) - (1 - p) * (s * (o - 1))) ∧
      expected_value 100 (1/2) 2 (1/20) "back" = .ok (-5/2) ∧
      expected_value 100 (1/2) 2 (1/20) "lay" = .ok (-5/2) := by
  refine ⟨expected_value_back_ok s p o r hp0 hp1 ho hr0 hr1,
    expected_value_lay_ok s p o r hp0 hp1 ho hr0 hr1, ?_, ?_⟩
  · rw [expected_value_back_ok 100 (1/2) 2 (1/20) (by norm_num) (by norm_num)
      (by norm_num) (by norm_num) (by norm_num)]
    exact congrArg Except.ok (by norm_num)
  · rw [expected_value_lay_ok 100 (1/2) 2 (1/20) (by norm_num) (by norm_num)
      (by norm_num) (by norm_num) (by norm_num)]
    exact congrArg Except.ok (by norm_num)

/-- Witness for C2 at `s = 100`, `p = 1/2`, `o = 2`, `r = 1/20`. -/
theorem expected_value_back_lay_formulas_witness :
    expected_value 100 (1/2) 2 (1/20) "back" = .ok (-5/2) :=
  (expected_value_back_lay_formulas 100 (1/2) 2 (1/20) (by norm_num)
    (by norm_num) (by norm_num) (by norm_num) (by norm_num)).2.2.1

/-- C4: `kelly_criterion p o f` raises `InvalidInput` exactly when
`p < 0`, `p > 1`, `o ≤ 1`, `f < 0` or `f > 1`, and returns normally on
every argument triple inside the domain. -/
theorem kelly_criterion_invalid_input_iff (p o f : ℚ) :
    ((∃ msg, kelly_criterion p o f = .error (.invalidInput msg)) ↔
        (p < 0 ∨ p > 1 ∨ o ≤ 1 ∨ f < 0 ∨ f > 1)) ∧
      ((∃ v, kelly_criterion p o f = .ok v) ↔
        ¬(p < 0 ∨ p > 1 ∨ o ≤ 1 ∨ f < 0 ∨ f > 1)) := by
  unfold kelly_criterion
  split_ifs with h1 h2 h3
  · refine ⟨⟨fun _ => by tauto, fun _ => ⟨_, rfl⟩⟩, ?_⟩
    constructor
    · rintro ⟨v, hv⟩
      exact absurd hv (by simp)
    · intro h
      exact absurd (by tauto) h
  · refine ⟨⟨fun _ => by tauto, fun _ => ⟨_, rfl⟩⟩, ?_⟩
    constructor
    · rintro ⟨v, hv⟩
      exact absurd hv (by simp)
    · intro h
      exact absurd (by tauto) h
  · refine ⟨⟨fun _ => by tauto, fun _ => ⟨_, rfl⟩⟩, ?_⟩
    constructor
    · rintro ⟨v, hv⟩
      exact absurd hv (by simp)
    · intro h
      exact absurd (by tauto) h
  · constructor
    · constructor
      · rintro ⟨msg, hmsg⟩
        exact absurd hmsg (by simp)
      · intro hc
        exact absurd hc (by tauto)
    · exact ⟨fun _ => by tauto, fun _ => ⟨_, rfl⟩⟩

/-- C5: for every `p ∈ [0,1]`, `o > 1` and `f ∈ [0,1]`,
`kelly_criterion` is finite and linear in the fraction:
`kelly_criterion p o f = .ok v`, `kelly_criterion p o 1 = .ok w`, with
`v = f * w`. -/
theorem kelly_criterion_linear_in_fraction (p o f : ℚ) (hp0 : 0 ≤ p)
    (hp1 : p ≤ 1) (ho : 1 < o) (hf0 : 0 ≤ f) (hf1 : f ≤ 1) :
    ∃ v w, kelly_criterion p o f = .ok v ∧ kelly_criterion p o 1 = .ok w ∧
      v = f * w := by
  refine ⟨_, _, kelly_criterion_ok p o f hp0 hp1 ho hf0 hf1,
    kelly_criterion_ok p o 1 hp0 hp1 ho (by norm_num) (by norm_num), ?_⟩
  ring

/-- Witness for C5 at `p = 1/2`, `o = 2`, `f = 1/2`. -/
theorem kelly_criterion_linear_in_fraction_witness :
    ∃ v w, kelly_criterion (1/2) 2 (1/2) = .ok v ∧
      kelly_criterion (1/2) 2 1 = .ok w ∧ v = (1/2 : ℚ) * w :=
  kelly_criterion_linear_in_fraction (1/2) 2 (1/2) (by norm_num) (by norm_num)
    (by norm_num) (by norm_num) (by norm_num)

/-- C9 counterexample: at `p = 0`, `o = 2`, `f = 0` the returned value
`0` equals the cap `f = 0` even though `p ≠ 1`, so equality does not hold
exactly when `p = 1`. -/
theorem kelly_criterion_cap_counterexample :
    kelly_criterion 0 2 0 = .ok 0 ∧ (0 : ℚ) ≠ 1 := by
  refine ⟨?_, by norm_num⟩
  rw [kelly_criterion_ok 0 2 0 (by norm_num) (by norm_num) (by norm_num)
    (by norm_num) (by norm_num)]
  exact congrArg Except.ok (by norm_num)

/-- C9 (amended): for every `p ∈ [0,1]`, `o > 1` and `f ∈ [0,1]`, the
value returned by `kelly_criterion p o f` never exceeds the cap `f`, with
equality exactly when `p = 1` or `f = 0`. -/
theorem kelly_criterion_le_fraction (p o f : ℚ) (hp0 : 0 ≤ p) (hp1 : p ≤ 1)
    (ho : 1 < o) (hf0 : 0 ≤ f) (hf1 : f ≤ 1) :
    ∃ v, kelly_criterion p o f = .ok v ∧ v ≤ f ∧
      (v = f ↔ (p = 1 ∨ f = 0)) := by
  have ho0 : (0:ℚ) < o := by linarith
  refine ⟨_, kelly_criterion_ok p o f hp0 hp1 ho hf0 hf1, ?_, ?_⟩
  · rw [div_le_iff₀ ho0]
    nlinarith [mul_nonneg hf0 (mul_nonneg (by linarith : (0:ℚ) ≤ 1 - p)
      (by linarith : (0:ℚ) ≤ o + 1))]
  · rw [div_eq_iff (ne_of_gt ho0)]
    constructor
    · intro h
      have hz : f * ((1 - p) * (o + 1)) = 0 := by linear_combination -h
      rcases mul_eq_zero.mp hz with hf | hq
      · exact Or.inr hf
      · rcases mul_eq_zero.mp hq with hone | htwo
        · exact Or.inl (by linarith)
        · exfalso
          linarith
    · rintro (rfl | rfl)
      · ring
      · ring

/-- Witness for the amended C9 at `p = 1`, `o = 2`, `f = 1`. -/
theorem kelly_criterion_le_fraction_witness :
    ∃ v, kelly_criterion 1 2 1 = .ok v ∧ v ≤ 1 ∧
      (v = 1 ↔ ((1:ℚ) = 1 ∨ (1:ℚ) = 0)) :=
  kelly_criterion_le_fraction 1 2 1 (by norm_num) (by norm_num) (by norm_num)
    (by norm_num) (by norm_num)

/-- C10: `expected_value` performs no validation of the stake: for every
stake `s` (negative included), with the side in `{back, lay}`, odds
`o > 1`, rate `r ∈ [0,1]` and probability `p ∈ [0,1]`, it returns the
per-side formula value computed with that stake and never raises. -/
theorem expected_value_ignores_stake (s p o r : ℚ) (hp0 : 0 ≤ p)
    (hp1 : p ≤ 1) (ho : 1 < o) (hr0 : 0 ≤ r) (hr1 : r ≤ 1) :
    expected_value s p o r "back" =
        .ok (p * (s * (o - 1) * (1 - r)) - (1 - p) * s) ∧
      expected_value s p o r "lay" =
        .ok (p * (s * (1 - r)) - (1 - p) * (s * (o - 1))) :=
  ⟨expected_value_back_ok s p o r hp0 hp1 ho hr0 hr1,
    expected_value_lay_ok s p o r hp0 hp1 ho hr0 hr1⟩

/-- Witness for C10 at the negative stake `s = -100`. -/
theorem expected_value_ignores_stake_witness :
    expected_value (-100) (1/2) 2 (1/20) "back" =
      .ok ((1/2) * ((-100) * (2 - 1) * (1 - 1/20)) - (1 - 1/2) * (-100)) :=
  (expected_value_ignores_stake (-100) (1/2) 2 (1/20) (by norm_num)
    (by norm_num) (by norm_num) (by norm_num) (by norm_num)).1

/-- C3: `expected_value` raises `InvalidInput` exactly when the option is
outside `{back, lay}`, the odds are at most 1, the rate is outside
`[0,1]` or the probability is outside `[0,1]`; the per-side helpers
delegate the probability check to the shared primitive `_ev`, which
computes `proba * profit - (1 - proba) * loss` and alone validates the
probability. -/
theorem expected_value_invalid_input_iff (s p o r pr ls : ℚ)
    (option : String) :
    ((∃ msg, expected_value s p o r option = .error (.invalidInput msg)) ↔
        (¬(option = "back" ∨ option = "lay") ∨ o ≤ 1 ∨ r < 0 ∨ r > 1 ∨
          p < 0 ∨ p > 1)) ∧
      (_ev_back s p o r = _ev p (s * (o - 1) * (1 - r)) s) ∧
      (_ev_lay s p o r = _ev p (s * (1 - r)) (s * (o - 1))) ∧
      ((∃ msg, _ev p pr ls = .error (.invalidInput msg)) ↔
        p < 0 ∨ p > 1) ∧
      (0 ≤ p → p ≤ 1 → _ev p pr ls = .ok (p * pr - (1 - p) * ls)) := by
  refine ⟨?_, rfl, rfl, ev_invalid_iff p pr ls,
    fun h0 h1 => ev_ok p pr ls h0 h1⟩
  by_cases hopt : option ∈ (["back", "lay"] : List String)
  · have hopt' : option = "back" ∨ option = "lay" := by simpa using hopt
    rcases hopt' with rfl | rfl
    · unfold expected_value
      rw [if_neg (by decide)]
      split_ifs with h2 h3 h4
      · exact ⟨fun _ => Or.inr (Or.inl h2), fun _ => ⟨_, rfl⟩⟩
      · refine ⟨fun _ => ?_, fun _ => ⟨_, rfl⟩⟩
        rcases h3 with h3a | h3b
        · exact Or.inr (Or.inr (Or.inl h3a))
        · exact Or.inr (Or.inr (Or.inr (Or.inl h3b)))
      · unfold _ev_back
        rw [ev_invalid_iff]
        constructor
        · intro h
          rcases h with h | h
          · exact Or.inr (Or.inr (Or.inr (Or.inr (Or.inl h))))
          · exact Or.inr (Or.inr (Or.inr (Or.inr (Or.inr h))))
        · rintro (hA | hB | hC | hD | hE | hF)
          · exact absurd (Or.inl rfl) hA
          · exact absurd hB h2
          · exact absurd (Or.inl hC) h3
          · exact absurd (Or.inr hD) h3
          · exact Or.inl hE
          · exact Or.inr hF
      · exact absurd (by decide) h4
    · unfold expected_value
      rw [if_neg (by decide)]
      split_ifs with h2 h3 h4
      · exact ⟨fun _ => Or.inr (Or.inl h2), fun _ => ⟨_, rfl⟩⟩
      · refine ⟨fun _ => ?_, fun _ => ⟨_, rfl⟩⟩
        rcases h3 with h3a | h3b
        · exact Or.inr (Or.inr (Or.inl h3a))
        · exact Or.inr (Or.inr (Or.inr (Or.inl h3b)))
      · exact absurd h4 (by decide)
      · unfold _ev_lay
        rw [ev_invalid_iff]
        constructor
        · intro h
          rcases h with h | h
          · exact Or.inr (Or.inr (Or.inr (Or.inr (Or.inl h))))
          · exact Or.inr (Or.inr (Or.inr (Or.inr (Or.inr h))))
        · rintro (hA | hB | hC | hD | hE | hF)
          · exact absurd (Or.inr rfl) hA
          · exact absurd hB h2
          · exact absurd (Or.inl hC) h3
          · exact absurd (Or.inr hD) h3
          · exact Or.inl hE
          · exact Or.inr hF
  · unfold expected_value
    rw [if_pos hopt]
    refine ⟨fun _ => Or.inl ?_, fun _ => ⟨_, rfl⟩⟩
    simpa using hopt

/-- Witness for C3: `expected_value` rejects odds `o = 1`, and `_ev`
evaluates its formula on an in-range probability. -/
theorem expected_value_invalid_input_iff_witness :
    (∃ msg, expected_value 100 (1/2) 1 (1/20) "back" =
        .error (.invalidInput msg)) ∧
      _ev (1/2) 3 4 = .ok ((1/2) * 3 - (1 - 1/2) * 4) :=
  ⟨((expected_value_invalid_input_iff 100 (1/2) 1 (1/20) 0 0 "back").1).mpr
      (Or.inr (Or.inl (by norm_num))),
    (expected_value_invalid_input_iff 100 (1/2) 1 (1/20) (3:ℚ) (4:ℚ)
        "back").2.2.2.2 (by norm_num) (by norm_num)⟩

/-- C6: in the back-side comprehension of `Betfair.books`, a runner is
selected exactly when its `available_to_lay` list is non-empty: a runner
with empty `available_to_lay` contributes nothing, a selected runner with
a non-empty `available_to_back` contributes the entry read from
`available_to_back[0]`, and a selected runner whose `available_to_back`
is empty reaches the unguarded indexing and raises `IndexError`. -/
theorem books_back_side_selection (market : MarketRecord) (r : Runner)
    (rs : List Runner) :
    (r.ex.available_to_lay = [] →
        back_entries market (r :: rs) = back_entries market rs) ∧
      (r.ex.available_to_lay ≠ [] → r.ex.available_to_back = [] →
        back_entries market (r :: rs) = .error .indexError) ∧
      (∀ p ps es, r.ex.available_to_lay ≠ [] →
        r.ex.available_to_back = p :: ps →
        back_entries market rs = .ok es →
        back_entries market (r :: rs) =
          .ok (mk_back_entry market r p :: es)) := by
  refine ⟨?_, ?_, ?_⟩
  · intro h
    simp [back_entries, h]
  · intro h1 h2
    rcases hl : r.ex.available_to_lay with _ | ⟨a, as⟩
    · exact absurd hl h1
    · simp [back_entries, hl, h2]
  · intro p ps es h1 h2 h3
    rcases hl : r.ex.available_to_lay with _ | ⟨a, as⟩
    · exact absurd hl h1
    · simp [back_entries, hl, h2, h3, Except.map]

/-- Witness for C6: a runner quoting a lay price but no back price makes
`back_entries` raise `IndexError`. -/
theorem books_back_side_selection_witness :
    back_entries sample_market_record [sample_runner] =
      .error .indexError :=
  (books_back_side_selection sample_market_record sample_runner []).2.1
    (by simp [sample_runner]) rfl

/-- C7 counterexample: the non-failure response whose instruction-report
list is empty makes `place_bet` raise `IndexError` instead of returning a
placed-bet record. -/
theorem place_bet_nonfailure_counterexample :
    sample_empty_response.status ≠ "FAILURE" ∧
      place_bet sample_empty_response = .error .indexError :=
  ⟨by decide, rfl⟩

/-- C7 (amended): `place_bet` raises `OrderRejected` carrying the venue's
error code on every failure-status response, and on every non-failure
response whose instruction-report list is non-empty it returns the record
built from the first instruction report. -/
theorem place_bet_report_spec (res : PlaceOrdersResponse) :
    (res.status = "FAILURE" →
        place_bet res = .error (.orderRejected res.status res.error_code)) ∧
      (res.status ≠ "FAILURE" → ∀ rep rest,
        res.place_instruction_reports = rep :: rest →
        place_bet res =
          .ok { bet_id := rep.bet_id
                placed_date := rep.placed_date
                average_price_matched := rep.placed_date
                size_matched := rep.size_matched
                status := rep.status }) := by
  constructor
  · intro h
    simp [place_bet, h]
  · intro h rep rest hrep
    simp [place_bet, h, hrep]

/-- Witness for the amended C7: a successful response with one
instruction report yields the record built from that report. -/
theorem place_bet_report_spec_witness :
    place_bet sample_success_response =
      .ok { bet_id := "bet-1"
            placed_date := "2021-01-01T00:00:00"
            average_price_matched := "2021-01-01T00:00:00"
            size_matched := 0
            status := "EXECUTABLE" } :=
  (place_bet_report_spec sample_success_response).2 (by decide)
    sample_report [] rfl

/-- Membership characterisation of `markets`: a record is yielded exactly
when it flattens a catalogue entry whose market time does not exceed the
horizon. -/
lemma markets_mem (now d : ℚ) (cats : List MarketCatalogue)
    (y : MarketRecord) :
    y ∈ markets now d cats ↔
      ∃ mkt ∈ cats, ¬(now + d < mkt.description.market_time) ∧
        y = flatten_catalogue mkt := by
  induction cats with
  | nil => simp [markets]
  | cons m rest ih =>
    simp only [markets]
    split_ifs with hm
    · rw [ih]
      constructor
      · rintro ⟨mkt, hmem, hc, rfl⟩
        exact ⟨mkt, List.mem_cons_of_mem m hmem, hc, rfl⟩
      · rintro ⟨mkt, hOr, hc, rfl⟩
        rcases List.mem_cons.mp hOr with rfl | hmem
        · exact absurd hm hc
        · exact ⟨mkt, hmem, hc, rfl⟩
    · simp only [List.mem_cons, ih]
      constructor
      · rintro (rfl | ⟨mkt, hmem, hc, rfl⟩)
        · exact ⟨m, Or.inl rfl, hm, rfl⟩
        · exact ⟨mkt, Or.inr hmem, hc, rfl⟩
      · rintro ⟨mkt, rfl | hmem, hc, rfl⟩
        · exact Or.inl rfl
        · exact Or.inr ⟨mkt, hmem, hc, rfl⟩

/-- C8: every record yielded by `markets` has its market time at most
`now + max_days_left` (no lower bound is enforced), and every catalogue
entry whose market time is later than that limit is skipped and never
yielded. -/
theorem markets_horizon (now d : ℚ) (cats : List MarketCatalogue) :
    (∀ y ∈ markets now d cats, y.market_time ≤ now + d) ∧
      (∀ mkt ∈ cats, now + d < mkt.description.market_time →
        flatten_catalogue mkt ∉ markets now d cats) := by
  constructor
  · intro y hy
    obtain ⟨mkt, -, hc, rfl⟩ := (markets_mem now d cats y).mp hy
    exact not_lt.mp hc
  · intro mkt hmem hgt hin
    obtain ⟨mkt', hmem', hc', heq⟩ :=
      (markets_mem now d cats (flatten_catalogue mkt)).mp hin
    exact hc' (hgt.trans_eq (congrArg MarketRecord.market_time heq))

/-- Witness for C8: a catalogue entry starting 8 days out is not yielded
for a 7-day horizon from `now = 0`. -/
theorem markets_horizon_witness :
    flatten_catalogue sample_catalogue ∉ markets 0 7 [sample_catalogue] :=
  (markets_horizon 0 7 [sample_catalogue]).2 sample_catalogue
    (List.mem_singleton.mpr rfl) (by norm_num [sample_catalogue])
